import Mathlib

/-!
Verification development for the p2pstream repository: a shallow embedding of
the packet codec (`protocol.py`), the video fragmentation layer
(`video_protocol.py`, `video_player.py`), the peer table (`peer_manager.py`),
the node dispatcher (`p2p_node.py`) and the pluggable scheduling algorithms
(`p2p_algorithms.py`), together with theorems settling the specification
claims about them.

Bytes are modelled as natural numbers below 256 in lists; the IEEE-754 double
timestamp field is carried as its 64-bit pattern (the codec only moves the 8
bytes, it never does float arithmetic).
-/

namespace P2PStream

/-- A byte string: list of byte values (each < 256 where produced by us). -/
abbrev Bytes := List Nat

/-- Big-endian encoding of `n` into `w` bytes, as `struct.pack` does for
the fixed-width unsigned fields (`B`, `H`, `I` and, at the bit-pattern
level, `d`). -/
def beBytes : Nat → Nat → Bytes
  | 0, _ => []
  | w + 1, n => beBytes w (n / 256) ++ [n % 256]

/-- Big-endian decoding of a byte string, as `struct.unpack` does. -/
def beVal (bs : Bytes) : Nat := bs.foldl (fun a b => a * 256 + b) 0

/-! ## Packet codec (`protocol.py`)

Header format `!BBIdH`: ver (1 B), msg_type (1 B), seq (4 B), timestamp
(8 B, IEEE-754 double carried here as its 64-bit pattern `tsBits`),
payload_len (2 B); all big-endian, 16 header bytes in total. -/

/-- `HEADER_SIZE = struct.calcsize("!BBIdH")`. -/
def HEADER_SIZE : Nat := 16

structure Packet where
  ver : Nat
  msgType : Nat
  seq : Nat
  tsBits : Nat
  payload : Bytes
  deriving Repr, DecidableEq

/-- `Packet.pack`: serializes the packet. `struct.pack` raises
`struct.error` when a field exceeds its width, modelled by `none`. -/
def Packet.pack (p : Packet) : Option Bytes :=
  if p.ver < 256 && p.msgType < 256 && p.seq < 2 ^ 32 && p.tsBits < 2 ^ 64
      && p.payload.length < 2 ^ 16 then
    some (beBytes 1 p.ver ++ beBytes 1 p.msgType ++ beBytes 4 p.seq
      ++ beBytes 8 p.tsBits ++ beBytes 2 p.payload.length ++ p.payload)
  else
    none

/-- `Packet.unpack`: deserializes bytes; `ValueError` (data shorter than the
header, or shorter than header plus advertised payload length) is `none`. -/
def Packet.unpack (data : Bytes) : Option Packet :=
  if data.length < HEADER_SIZE then
    none
  else
    let ver := beVal (data.take 1)
    let msgType := beVal ((data.drop 1).take 1)
    let seq := beVal ((data.drop 2).take 4)
    let tsBits := beVal ((data.drop 6).take 8)
    let payloadLen := beVal ((data.drop 14).take 2)
    if data.length < HEADER_SIZE + payloadLen then
      none
    else
      some ⟨ver, msgType, seq, tsBits, (data.drop HEADER_SIZE).take payloadLen⟩

/-! ## ChunkPayload codec (`video_protocol.py`)

Header format `!IHH`: frame_id (4 B), total_frags (2 B), frag_index (2 B). -/

def PAYLOAD_HEADER_SIZE : Nat := 8

structure ChunkPayload where
  frameId : Nat
  totalFrags : Nat
  fragIndex : Nat
  data : Bytes
  deriving Repr, DecidableEq

/-- `ChunkPayload.pack`, with `struct.error` on out-of-range fields as `none`. -/
def ChunkPayload.pack (c : ChunkPayload) : Option Bytes :=
  if c.frameId < 2 ^ 32 && c.totalFrags < 2 ^ 16 && c.fragIndex < 2 ^ 16 then
    some (beBytes 4 c.frameId ++ beBytes 2 c.totalFrags ++ beBytes 2 c.fragIndex ++ c.data)
  else
    none

/-- `ChunkPayload.unpack`: `ValueError` (buffer shorter than the 8-byte
header) is `none`. -/
def ChunkPayload.unpack (buffer : Bytes) : Option ChunkPayload :=
  if buffer.length < PAYLOAD_HEADER_SIZE then
    none
  else
    some ⟨beVal (buffer.take 4), beVal ((buffer.drop 4).take 2),
      beVal ((buffer.drop 6).take 2), buffer.drop PAYLOAD_HEADER_SIZE⟩

/-! ## Python dict / set primitives

Python dicts preserve insertion order; they are modelled as association lists
with unique keys: assignment replaces in place, a fresh key is appended at the
end, `del` removes the entry.  Python sets are modelled as duplicate-free
lists. -/

/-- Dict assignment `d[k] = v`. -/
def setA {α β : Type} [DecidableEq α] : List (α × β) → α → β → List (α × β)
  | [], k, v => [(k, v)]
  | (k0, v0) :: rest, k, v =>
    if k0 = k then (k0, v) :: rest else (k0, v0) :: setA rest k v

/-- Dict deletion `del d[k]` (no-op on a missing key; the source only deletes
keys it has just looked up). -/
def eraseA {α β : Type} [DecidableEq α] : List (α × β) → α → List (α × β)
  | [], _ => []
  | (k0, v0) :: rest, k => if k0 = k then rest else (k0, v0) :: eraseA rest k

/-- Set insertion `s.add(x)`. -/
def setInsert {α : Type} [DecidableEq α] (s : List α) (x : α) : List α :=
  if x ∈ s then s else x :: s

/-! ## Frame reassembly (`video_player.py`) -/

structure Reassembler where
  buffers : List (Nat × List (Nat × Bytes))
  meta : List (Nat × Nat)
  lastCompleted : Int
  deriving Repr, DecidableEq

def initReassembler : Reassembler := ⟨[], [], -1⟩

/-- The reassembly loop `for i in range(total_frags): full_data.extend(current_buffer[i])`;
a missing index raises `KeyError` (caught by the enclosing `except`), modelled
as `none`. -/
def fragsConcat (buf : List (Nat × Bytes)) (total : Nat) : Option Bytes :=
  (List.range total).foldl
    (fun acc i =>
      match acc, List.lookup i buf with
      | some bs, some d => some (bs ++ d)
      | _, _ => none)
    (some [])

/-- `FrameReassembler.add_fragment`.  A parse failure, the stale-frame guard,
and the `KeyError` path of the reassembly loop all return `None`; in the
`KeyError` case the fragment insertion has already happened, so the mutated
buffers are kept but no cleanup runs and `last_completed_frame_id` is not
advanced — exactly as the `try/except` in the source behaves. -/
def Reassembler.addFragment (st : Reassembler) (payloadBytes : Bytes) :
    Reassembler × Option Bytes :=
  match ChunkPayload.unpack payloadBytes with
  | none => (st, none)
  | some c =>
    if (c.frameId : Int) ≤ st.lastCompleted then
      (st, none)
    else
      let firstSeen := (List.lookup c.frameId st.buffers).isNone
      let meta1 := if firstSeen then setA st.meta c.frameId c.totalFrags else st.meta
      let buf0 := (List.lookup c.frameId st.buffers).getD []
      let buf1 := setA buf0 c.fragIndex c.data
      let buffers1 := setA st.buffers c.frameId buf1
      let total := (List.lookup c.frameId meta1).getD 0
      if buf1.length = total then
        match fragsConcat buf1 total with
        | some full =>
          -- `_cleanup`: drop the completed frame and all older buffered frames
          -- (their meta entries coincide with the buffer keys).
          (⟨buffers1.filter (fun fb => decide (¬ (fb.1 : Int) ≤ (c.frameId : Int))),
            meta1.filter (fun fm => decide (¬ (fm.1 : Int) ≤ (c.frameId : Int))),
            (c.frameId : Int)⟩, some full)
        | none => (⟨buffers1, meta1, st.lastCompleted⟩, none)
      else
        (⟨buffers1, meta1, st.lastCompleted⟩, none)

/-- Feed a list of raw chunk payloads to a reassembler in order, collecting
each emitted frame together with the `last_completed_frame_id` recorded at its
emission (which `add_fragment` sets to the emitted frame's id). -/
def runReassembler : List Bytes → Reassembler → Reassembler × List (Int × Bytes)
  | [], st => (st, [])
  | pb :: rest, st =>
    let step := st.addFragment pb
    let cont := runReassembler rest step.1
    match step.2 with
    | some bs => (cont.1, (step.1.lastCompleted, bs) :: cont.2)
    | none => (cont.1, cont.2)

/-! ## Message type constants (`p2p_protocol.py`) -/

def TYPE_HANDSHAKE : Nat := 1
def TYPE_HEARTBEAT : Nat := 2
def TYPE_BITMAP : Nat := 3
def TYPE_REQUEST : Nat := 4
def TYPE_DATA : Nat := 5
def TYPE_PEER_LIST : Nat := 6
def TYPE_PING : Nat := 7
def TYPE_PONG : Nat := 8
def TYPE_STATS_REPORT : Nat := 9

/-! ## Byte-string and JSON helpers

All payloads of this protocol are ASCII, so UTF-8 encode/decode is the
identity on the byte values of the characters. -/

/-- UTF-8 encoding of an ASCII string. -/
def strBytes (s : String) : Bytes := s.data.map Char.toNat

/-- `int(payload.decode("utf-8"))` for the canonical wire format of REQUEST
payloads: a non-empty string of decimal digits (byte values 48–57). -/
def digitsNat (bs : Bytes) : Option Nat :=
  if bs ≠ [] ∧ bs.all (fun b => 48 ≤ b && b ≤ 57) then
    some (bs.foldl (fun a b => a * 10 + (b - 48)) 0)
  else
    none

/-- Minimal JSON value model covering the payload shapes this protocol uses
(integers, strings, arrays, objects). -/
inductive Json where
  | num : Int → Json
  | str : String → Json
  | arr : List Json → Json
  | obj : List (String × Json) → Json

/-- Whitespace skipping for the JSON reader. -/
def skipWs : Bytes → Bytes
  | [] => []
  | b :: rest =>
    if b = 32 ∨ b = 9 ∨ b = 10 ∨ b = 13 then skipWs rest else b :: rest

/-- Reads a maximal run of decimal digits. -/
def readDigits : Bytes → Nat → Nat × Bytes
  | [], acc => (acc, [])
  | b :: rest, acc =>
    if 48 ≤ b ∧ b ≤ 57 then readDigits rest (acc * 10 + (b - 48)) else (acc, b :: rest)

/-- Reads the remainder of a JSON string after the opening quote (byte 34):
plain ASCII characters without escapes, up to the closing quote. -/
def readStr : Bytes → Option (String × Bytes)
  | [] => none
  | b :: rest =>
    if b = 34 then some ("", rest)
    else if b = 92 ∨ b < 32 ∨ 127 ≤ b then none
    else
      match readStr rest with
      | some (s, rest1) => some (String.mk (Char.ofNat b :: s.data), rest1)
      | none => none

mutual

/-- Recursive-descent JSON value reader (fuel-indexed); mirrors
`json.loads` on the integer/string/array/object fragment this protocol
exchanges. -/
def readVal : Nat → Bytes → Option (Json × Bytes)
  | 0, _ => none
  | fuel + 1, bs =>
    match skipWs bs with
    | [] => none
    | b :: rest =>
      if b = 91 then          -- character [
        match skipWs rest with
        | 93 :: rest1 => some (.arr [], rest1)   -- character ]
        | rest1 =>
          match readElems fuel rest1 with
          | some (js, rest2) => some (.arr js, rest2)
          | none => none
      else if b = 123 then    -- left brace character
        match skipWs rest with
        | 125 :: rest1 => some (.obj [], rest1)  -- right brace character
        | rest1 =>
          match readMembers fuel rest1 with
          | some (kvs, rest2) => some (.obj kvs, rest2)
          | none => none
      else if b = 34 then     -- double quote
        match readStr rest with
        | some (s, rest1) => some (.str s, rest1)
        | none => none
      else if b = 45 then     -- minus sign
        match rest with
        | d :: rest1 =>
          if 48 ≤ d ∧ d ≤ 57 then
            let r := readDigits rest1 (d - 48)
            some (.num (-(r.1 : Int)), r.2)
          else none
        | [] => none
      else if 48 ≤ b ∧ b ≤ 57 then
        let r := readDigits rest (b - 48)
        some (.num (r.1 : Int), r.2)
      else none

/-- Reads comma-separated array elements up to the closing bracket. -/
def readElems : Nat → Bytes → Option (List Json × Bytes)
  | 0, _ => none
  | fuel + 1, bs =>
    match readVal fuel bs with
    | none => none
    | some (j, rest) =>
      match skipWs rest with
      | 44 :: rest1 => -- comma
        match readElems fuel rest1 with
        | some (js, rest2) => some (j :: js, rest2)
        | none => none
      | 93 :: rest1 => some ([j], rest1)  -- closing bracket
      | _ => none

/-- Reads comma-separated object members up to the closing brace. -/
def readMembers : Nat → Bytes → Option (List (String × Json) × Bytes)
  | 0, _ => none
  | fuel + 1, bs =>
    match skipWs bs with
    | 34 :: rest =>   -- key string
      match readStr rest with
      | none => none
      | some (k, rest1) =>
        match skipWs rest1 with
        | 58 :: rest2 =>  -- colon
          match readVal fuel rest2 with
          | none => none
          | some (v, rest3) =>
            match skipWs rest3 with
            | 44 :: rest4 =>
              match readMembers fuel rest4 with
              | some (kvs, rest5) => some ((k, v) :: kvs, rest5)
              | none => none
            | 125 :: rest4 => some ([(k, v)], rest4)  -- right brace
            | _ => none
        | _ => none
    | _ => none

end

/-- `json.loads(payload.decode("utf-8"))`: `none` models the exceptions the
handlers catch. -/
def jsonLoads (payload : Bytes) : Option Json :=
  match readVal (payload.length + 1) payload with
  | some (j, rest) => if skipWs rest = [] then some j else none
  | none => none

/-- `json.dumps` of a list of `[start, end]` integer pairs (Python's default
separators put one space after each comma). -/
def dumpRangesBytes (rs : List (Nat × Nat)) : Bytes :=
  strBytes ("[" ++ String.intercalate ", "
    (rs.map (fun r => "[" ++ toString r.1 ++ ", " ++ toString r.2 ++ "]")) ++ "]")

/-- `json.dumps` of the handshake body; braces are byte values 123 and 125. -/
def jsonRoleBytes (role : String) : Bytes :=
  [123, 34] ++ strBytes "role" ++ [34, 58, 32, 34] ++ strBytes role ++ [34, 125]

/-- `json.dumps` of a `[[host, port, role], ...]` peer list. -/
def dumpPeerTriples (ts : List (String × Nat × String)) : Bytes :=
  strBytes ("[" ++ String.intercalate ", "
    (ts.map (fun t => "[\"" ++ t.1 ++ "\", " ++ toString t.2.1 ++ ", \"" ++ t.2.2 ++ "\"]"))
    ++ "]")

/-! ## Peer table (`peer_manager.py`)

The source `Peer` class has exactly the attributes below: host, port, role,
last_seen and remote_bitmap.  It defines no `rtt` attribute and no
`update_rtt` method, although `p2p_node.py` calls `peer.update_rtt(...)` and
reads `peer.rtt`. -/

abbrev Addr := String × Nat

structure Peer where
  host : String
  port : Nat
  role : String
  lastSeen : Nat
  remoteBitmap : List Nat
  deriving Repr, DecidableEq

/-- `PeerManager.update_peer(addr, role=None)`: create-if-absent (default
role viewer), else refresh `last_seen` and optionally overwrite the role. -/
def updatePeerT (peers : List (Addr × Peer)) (addr : Addr) (role : Option String)
    (now : Nat) : List (Addr × Peer) :=
  match List.lookup addr peers with
  | none => peers ++ [(addr, ⟨addr.1, addr.2, role.getD "viewer", now, []⟩)]
  | some p =>
    setA peers addr
      { p with lastSeen := now,
               role := match role with | some r => r | none => p.role }

/-- `PeerManager.update_bitmap(addr, data)`: wholesale replacement of the
peer's remote bitmap, creating the peer implicitly when absent. -/
def updateBitmapT (peers : List (Addr × Peer)) (addr : Addr) (bm : List Nat)
    (now : Nat) : List (Addr × Peer) :=
  match List.lookup addr peers with
  | some p => setA peers addr { p with remoteBitmap := bm }
  | none =>
    match List.lookup addr (updatePeerT peers addr none now) with
    | some p => setA (updatePeerT peers addr none now) addr { p with remoteBitmap := bm }
    | none => updatePeerT peers addr none now

/-! ## Scheduling algorithms (`p2p_algorithms.py`)

An algorithm owns only its private state; within the `handle_packet` flow the
source algorithms touch nothing of the node except through the two hooks
below (`on_start`, `on_tick` run on timers, and `on_peer_discovered` is the
inherited `pass` in every concrete class, hence omitted). -/

structure AlgoOps (A : Type) where
  handlePacket : A → Packet → Addr → A × Bool
  onChunkReceived : A → List Addr → Nat → Bytes → Addr → A

/-- `SplitterAlgorithm` private state: the round-robin cursor. -/
structure SplitterSt where
  rrIndex : Nat
  deriving Repr, DecidableEq

/-- `DefaultPushAlgorithm` private state: `pending_push`, an insertion-ordered
mapping chunk_id → ordered list of target addresses. -/
abbrev PushSt := List (Nat × List Addr)

/-- `SplitterAlgorithm` inherits the base `handle_packet` (returns `False`)
and the base `on_chunk_received` (a `pass`). -/
def splitterOps : AlgoOps SplitterSt :=
  ⟨fun a _ _ => (a, false), fun a _ _ _ _ => a⟩

/-- `DefaultPushAlgorithm.on_chunk_received`: schedule a flood of the chunk to
every active peer except the source; an empty target list creates no entry. -/
def pushOnChunkReceived (pp : PushSt) (peers : List Addr) (chunkId : Nat)
    (_payload : Bytes) (src : Addr) : PushSt :=
  let targets := peers.filter (fun q => q ≠ src)
  if targets.isEmpty then pp else setA pp chunkId targets

def defaultPushOps : AlgoOps PushSt :=
  ⟨fun a _ _ => (a, false), pushOnChunkReceived⟩

/-- `DefaultPushAlgorithm.on_tick`: iterates over a snapshot of the
`pending_push` keys, popping the first target of each entry and emitting one
`send_data(target, chunk_id)` call per entry, deleting entries that empty.
The source assigns `limit = 5` and increments `processed`, but never compares
them, so the drain is NOT capped: one send per pending entry. -/
def pushOnTick (pp : PushSt) : PushSt × List (Addr × Nat) :=
  if pp.isEmpty then (pp, [])
  else
    (pp.map (fun e => e.1)).foldl
      (fun st k =>
        match List.lookup k st.1 with
        | none => st
        | some ts =>
          match ts with
          | [] => (eraseA st.1 k, st.2)
          | t :: ts1 =>
            if ts1.isEmpty then (eraseA st.1 k, st.2 ++ [(t, k)])
            else (setA st.1 k ts1, st.2 ++ [(t, k)]))
      (pp, [])

/-- `RarestFirstAlgorithm.handle_packet`: intercept REQUEST for pull-dedup;
always returns `False` (on a parse failure the bare `except` falls through to
the base class, which also returns `False`). -/
def rarestHandlePacket (pp : PushSt) (p : Packet) (addr : Addr) : PushSt × Bool :=
  if p.msgType = TYPE_REQUEST then
    match digitsNat p.payload with
    | some c =>
      match List.lookup c pp with
      | some ts =>
        if addr ∈ ts then
          if (ts.erase addr).isEmpty then (eraseA pp c, false)
          else (setA pp c (ts.erase addr), false)
        else (pp, false)
      | none => (pp, false)
    | none => (pp, false)
  else (pp, false)

/-- `EDFAlgorithm.handle_packet`: a verbatim duplicate of the RarestFirst
interception in the source, embedded separately to mirror that. -/
def edfHandlePacket (pp : PushSt) (p : Packet) (addr : Addr) : PushSt × Bool :=
  if p.msgType = TYPE_REQUEST then
    match digitsNat p.payload with
    | some c =>
      match List.lookup c pp with
      | some ts =>
        if addr ∈ ts then
          if (ts.erase addr).isEmpty then (eraseA pp c, false)
          else (setA pp c (ts.erase addr), false)
        else (pp, false)
      | none => (pp, false)
    | none => (pp, false)
  else (pp, false)

def rarestOps : AlgoOps PushSt := ⟨rarestHandlePacket, pushOnChunkReceived⟩

def edfOps : AlgoOps PushSt := ⟨edfHandlePacket, pushOnChunkReceived⟩

/-! ## Bitmap run-length encoding (`P2PNode.send_bitmap`) -/

/-- The range-merging loop of `send_bitmap`, carrying the current run
`(start, prev)` over the remaining sorted chunks. -/
def rleAux (start prev : Nat) : List Nat → List (Nat × Nat)
  | [] => [(start, prev)]
  | x :: xs =>
    if x = prev + 1 then rleAux start x xs else (start, prev) :: rleAux x x xs

/-- Maximal-run compression of an ascending chunk list as the source loop
produces it. -/
def rleRanges : List Nat → List (Nat × Nat)
  | [] => []
  | x :: xs => rleAux x x xs

/-- `ranges[-50:]` applied only when more than 50 ranges exist. -/
def truncRanges (rs : List (Nat × Nat)) : List (Nat × Nat) :=
  if rs.length > 50 then rs.drop (rs.length - 50) else rs

/-- `sorted(list(my_bitmap))`. -/
def sortedChunks (bm : List Nat) : List Nat := List.insertionSort (· ≤ ·) bm

/-- The BITMAP payload `send_bitmap` serializes for a given owned set. -/
def sendBitmapPayload (bm : List Nat) : Bytes :=
  if bm.isEmpty then strBytes "[]"
  else dumpRangesBytes (truncRanges (rleRanges (sortedChunks bm)))

/-- Receiver-side expansion of `[[s, e], ...]`: `new_set.update(range(s, e + 1))`
for each pair. -/
def expandRanges (rs : List (Nat × Nat)) : List Nat :=
  rs.flatMap (fun r => List.range' r.1 (r.2 + 1 - r.1))

/-- The TYPE_BITMAP handler's decoding of a parsed JSON payload: a non-empty
list whose head is a list is read as `[[s, e], ...]` ranges (a malformed
element aborts the handler before `update_bitmap` runs, modelled as `none`);
any other list is read as a flat chunk list. -/
def bitmapFromJson : Json → Option (List Nat)
  | .arr [] => some []
  | .arr (j :: js) =>
    match j with
    | .arr _ =>
      (j :: js).foldl
        (fun acc e =>
          match acc, e with
          | some s, .arr [.num a, .num b] =>
            if 0 ≤ a ∧ 0 ≤ b then some (s ++ List.range' a.toNat (b.toNat + 1 - a.toNat))
            else none
          | _, _ => none)
        (some [])
    | _ =>
      (j :: js).foldl
        (fun acc e =>
          match acc, e with
          | some s, .num a => if 0 ≤ a then some (s ++ [a.toNat]) else none
          | _, _ => none)
        (some [])
  | _ => none

def bitmapPayloadSet (payload : Bytes) : Option (List Nat) :=
  match jsonLoads payload with
  | some j => bitmapFromJson j
  | none => none

/-! ## Node state machine (`p2p_node.py`) -/

structure NodeState (A : Type) where
  host : String
  port : Nat
  role : String
  myBitmap : List Nat
  dataStore : List (Nat × Bytes)
  peers : List (Addr × Peer)
  algo : A

/-- The constructor's dummy payload `f"Data-{seq}".encode()` for initial
chunks. -/
def dataChunkBytes (seq : Nat) : Bytes := strBytes ("Data-" ++ toString seq)

/-- `P2PNode.__init__`: `my_bitmap` is the initial chunk set and `data_store`
is seeded with a dummy payload for each of its members. -/
def initNode (A : Type) (host : String) (port : Nat) (role : String)
    (initialChunks : List Nat) (a : A) : NodeState A :=
  let bm := initialChunks.dedup
  ⟨host, port, role, bm, bm.map (fun s => (s, dataChunkBytes s)), [], a⟩

/-- Packet construction `Packet(ver=1, msg_type=.., seq=.., timestamp=now,
payload=..)`. -/
def mkPacket (mt seq now : Nat) (payload : Bytes) : Packet :=
  ⟨1, mt, seq, now, payload⟩

/-- `get_best_ip_for_peer`: loopback destinations get `127.0.0.1`; otherwise
the OS route lookup through a transient socket, modelled by the oracle
`ipOf`. -/
def getBestIp (ipOf : String → String) (peerIp : String) : String :=
  if peerIp = "127.0.0.1" ∨ peerIp = "localhost" then "127.0.0.1" else ipOf peerIp

/-- `send_peer_list`: all active peers as triples plus self, with the
self address chosen per destination. -/
def peerListPayload (ipOf : String → String) (s : NodeState A) (dest : Addr) : Bytes :=
  dumpPeerTriples
    ((s.peers.map (fun e => (e.2.host, e.2.port, e.2.role)))
      ++ [(getBestIp ipOf dest.1, s.port, s.role)])

/-- The HANDSHAKE payload's role: `json.loads(...).get("role", "viewer")`,
with `viewer` on an empty payload or any exception. -/
def handshakeRole (payload : Bytes) : String :=
  if payload.isEmpty then "viewer"
  else
    match jsonLoads payload with
    | some (.obj kvs) =>
      match List.lookup "role" kvs with
      | some (.str r) => r
      | _ => "viewer"
    | _ => "viewer"

/-- `connect_to(host, port)`: a HANDSHAKE carrying the node's own role. -/
def connectPacket (role : String) (now : Nat) : Packet :=
  mkPacket TYPE_HANDSHAKE 0 now (jsonRoleBytes role)

/-- The PEER_LIST handler's loop over `[[host, port, role], ...]`: entries
with the node's own port are skipped, unknown endpoints get a `connect_to`
handshake, known ones a role refresh; a malformed triple raises inside the
`try`, aborting the rest of the loop but keeping earlier effects. -/
def processPeerList (selfPort : Nat) (selfRole : String) (now : Nat) :
    List Json → List (Addr × Peer) → List (Addr × Packet) →
    List (Addr × Peer) × List (Addr × Packet)
  | [], peers, sends => (peers, sends)
  | .arr [.str h, .num pt, .str r] :: rest, peers, sends =>
    if 0 ≤ pt then
      let ptn := pt.toNat
      if ptn = selfPort then processPeerList selfPort selfRole now rest peers sends
      else if (List.lookup (h, ptn) peers).isSome then
        processPeerList selfPort selfRole now rest
          (updatePeerT peers (h, ptn) (some r) now) sends
      else
        processPeerList selfPort selfRole now rest peers
          (sends ++ [((h, ptn), connectPacket selfRole now)])
    else (peers, sends)
  | _ :: _, peers, sends => (peers, sends)

/-- The default dispatch chain of `P2PNode.handle_packet` (after the liveness
touch and the algorithm interception), also duplicated verbatim inside
`send_data_packet` in the source.  Returns the new node state and the packets
handed to `transport.send_packet`, in order. -/
def dispatch (ops : AlgoOps A) (ipOf : String → String) (s : NodeState A)
    (p : Packet) (addr : Addr) (now : Nat) : NodeState A × List (Addr × Packet) :=
  if p.msgType = TYPE_HANDSHAKE then
    let s1 := { s with peers := updatePeerT s.peers addr (some (handshakeRole p.payload)) now }
    let sends := [(addr, mkPacket TYPE_BITMAP 0 now (sendBitmapPayload s1.myBitmap))]
      ++ (if s1.role = "broadcaster" then [(addr, mkPacket TYPE_PEER_LIST 0 now (peerListPayload ipOf s1 addr))] else [])
    (s1, sends)
  else if p.msgType = TYPE_PEER_LIST then
    match jsonLoads p.payload with
    | some (.arr items) =>
      let r := processPeerList s.port s.role now items s.peers []
      ({ s with peers := r.1 }, r.2)
    | _ => (s, [])
  else if p.msgType = TYPE_PING then
    (s, [(addr, mkPacket TYPE_PONG 0 now p.payload)])
  else if p.msgType = TYPE_PONG then
    -- The handler computes `rtt` and calls `peers[addr].update_rtt(rtt)`, but
    -- the Peer class defines no such method: the AttributeError is swallowed
    -- by the bare `except`, so no state changes.
    (s, [])
  else if p.msgType = TYPE_HEARTBEAT then
    (s, [])
  else if p.msgType = TYPE_BITMAP then
    match bitmapPayloadSet p.payload with
    | some newSet => ({ s with peers := updateBitmapT s.peers addr newSet now }, [])
    | none => (s, [])
  else if p.msgType = TYPE_REQUEST then
    match digitsNat p.payload with
    | some n =>
      match List.lookup n s.dataStore with
      | some d => (s, [(addr, mkPacket TYPE_DATA n now d)])  -- send_data(addr, n)
      | none => (s, [])
    | none => (s, [])
  else if p.msgType = TYPE_DATA then
    if p.seq ∈ s.myBitmap then (s, [])
    else
      ({ s with dataStore := setA s.dataStore p.seq p.payload,
                myBitmap := setInsert s.myBitmap p.seq,
                algo := ops.onChunkReceived s.algo (s.peers.map (fun e => e.1)) p.seq p.payload addr },
       [])
  else (s, [])

/-- `P2PNode.handle_packet`: unconditional liveness touch, algorithm
interception, then the default dispatch. -/
def handlePacketN (ops : AlgoOps A) (ipOf : String → String) (s : NodeState A)
    (p : Packet) (addr : Addr) (now : Nat) : NodeState A × List (Addr × Packet) :=
  let s1 := { s with peers := updatePeerT s.peers addr none now }
  let ha := ops.handlePacket s1.algo p addr
  let s2 := { s1 with algo := ha.1 }
  if ha.2 then (s2, []) else dispatch ops ipOf s2 p addr now

/-- `P2PNode.send_data_packet(addr, seq, payload)`: emits the DATA packet,
then runs the copy-pasted dispatch block the source appended to the method on
that very packet; as its `msg_type` is TYPE_DATA, only the DATA branch can
fire, storing the chunk locally and invoking `on_chunk_received` with the
destination address in the source-address position. -/
def sendDataPacket (ops : AlgoOps A) (s : NodeState A) (addr : Addr) (seq : Nat)
    (payload : Bytes) (now : Nat) : NodeState A × List (Addr × Packet) :=
  let pkt := mkPacket TYPE_DATA seq now payload
  if seq ∈ s.myBitmap then (s, [(addr, pkt)])
  else
    ({ s with dataStore := setA s.dataStore seq payload,
              myBitmap := setInsert s.myBitmap seq,
              algo := ops.onChunkReceived s.algo (s.peers.map (fun e => e.1)) seq payload addr },
     [(addr, pkt)])

/-- `SplitterAlgorithm.on_chunk_generated`: with no active peers the call
returns at once (nothing is stored or sent); otherwise advance the
round-robin cursor and unicast through `send_data_packet`. -/
def splitterOnChunkGenerated (s : NodeState SplitterSt) (chunkId : Nat)
    (payload : Bytes) (now : Nat) : NodeState SplitterSt × List (Addr × Packet) :=
  let peersK := s.peers.map (fun e => e.1)
  if peersK.isEmpty then (s, [])
  else
    let rr1 := (s.algo.rrIndex + 1) % peersK.length
    let target := peersK.getD rr1 ("", 0)
    sendDataPacket splitterOps { s with algo := ⟨rr1⟩ } target chunkId payload now

/-- Sequential generation of chunks on a broadcaster, collecting every packet
handed to the transport. -/
def splitterRun (s : NodeState SplitterSt) (now : Nat) :
    List (Nat × Bytes) → NodeState SplitterSt × List (Addr × Packet)
  | [] => (s, [])
  | (c, pl) :: rest =>
    let step := splitterOnChunkGenerated s c pl now
    let cont := splitterRun step.1 now rest
    (cont.1, step.2 ++ cont.2)

/-- The store/bitmap consistency invariant of the spec: a chunk id is in
`my_bitmap` iff it is a key of `data_store`. -/
def StoreBitmapConsistent {A : Type} (s : NodeState A) : Prop :=
  ∀ id : Nat, id ∈ s.myBitmap ↔ (List.lookup id s.dataStore).isSome

/-! # Theorems -/

theorem beBytes_length (w n : Nat) : (beBytes w n).length = w := by
  induction w generalizing n with
  | zero => rfl
  | succ w ih => simp [beBytes, ih]

theorem beVal_append_one (bs : Bytes) (b : Nat) :
    beVal (bs ++ [b]) = beVal bs * 256 + b := by
  simp [beVal, List.foldl_append]

theorem beVal_beBytes (w n : Nat) : beVal (beBytes w n) = n % 256 ^ w := by
  induction w generalizing n with
  | zero => simp [beBytes, beVal, Nat.mod_one]
  | succ w ih =>
    rw [beBytes, beVal_append_one, ih]
    have hsplit : n % 256 ^ (w + 1) = n % 256 + 256 * (n / 256 % 256 ^ w) := by
      rw [pow_succ', Nat.mod_mul]
    omega

theorem beVal_beBytes_of_lt {w n : Nat} (h : n < 256 ^ w) :
    beVal (beBytes w n) = n := by
  rw [beVal_beBytes, Nat.mod_eq_of_lt h]

/-- C1: for every packet with in-range fields (`ver`, `msg_type` one byte,
`seq` below 2^32, the timestamp an arbitrary 64-bit double pattern, payload
at most 65535 bytes), `Packet.unpack` applied to `Packet.pack`'s output
returns the packet unchanged — the 16-byte big-endian header codec is a
round-trip identity. -/
theorem packet_codec_roundtrip (p : Packet)
    (hv : p.ver ≤ 255) (hm : p.msgType ≤ 255) (hs : p.seq < 2 ^ 32)
    (ht : p.tsBits < 2 ^ 64) (hl : p.payload.length ≤ 65535) :
    ∃ bs, p.pack = some bs ∧ Packet.unpack bs = some p := by
  obtain ⟨v, mt, s, ts, pl⟩ := p
  simp only at hv hm hs ht hl
  have hcond : (v < 256 && mt < 256 && s < 2 ^ 32 && ts < 2 ^ 64
      && pl.length < 2 ^ 16) = true := by
    simp only [Bool.and_eq_true, decide_eq_true_eq]
    omega
  refine ⟨beBytes 1 v ++ beBytes 1 mt ++ beBytes 4 s
      ++ beBytes 8 ts ++ beBytes 2 pl.length ++ pl, ?_, ?_⟩
  · rw [Packet.pack, if_pos hcond]
  · simp only [beBytes, List.nil_append, List.append_assoc, List.cons_append]
    rw [Packet.unpack]
    simp only [HEADER_SIZE, List.length_cons, List.length_append, beVal, List.take, List.drop,
      List.foldl]
    rw [if_neg (by omega), if_neg (by omega)]
    simp only [Option.some.injEq, Packet.mk.injEq]
    refine ⟨by omega, by omega, by omega, by omega, ?_⟩
    have hlen : (0 * 256 + List.length pl / 256 % 256) * 256 + List.length pl % 256
        = List.length pl := by omega
    rw [hlen, List.take_length]

/-- Witness for C1 at a concrete packet. -/
theorem packet_codec_roundtrip_witness :
    ∃ bs, Packet.pack ⟨1, 5, 70000, 2 ^ 63 + 17, [10, 20, 30]⟩ = some bs ∧
      Packet.unpack bs = some ⟨1, 5, 70000, 2 ^ 63 + 17, [10, 20, 30]⟩ :=
  packet_codec_roundtrip ⟨1, 5, 70000, 2 ^ 63 + 17, [10, 20, 30]⟩
    (by decide) (by decide) (by norm_num) (by norm_num) (by decide)

/-! ## Association-list lemmas -/

theorem lookup_cons_same {α β : Type} [DecidableEq α] (k : α) (v : β) (m : List (α × β)) :
    List.lookup k ((k, v) :: m) = some v := by
  simp [List.lookup]

theorem lookup_cons_diff {α β : Type} [DecidableEq α] {k k0 : α} (v0 : β)
    (m : List (α × β)) (h : k ≠ k0) :
    List.lookup k ((k0, v0) :: m) = List.lookup k m := by
  have hb : (k == k0) = false := beq_eq_false_iff_ne.mpr h
  simp [List.lookup, hb]

theorem lookup_setA_self {α β : Type} [DecidableEq α] (m : List (α × β)) (k : α) (v : β) :
    List.lookup k (setA m k v) = some v := by
  induction m with
  | nil => simp [setA, lookup_cons_same]
  | cons e rest ih =>
    obtain ⟨k0, v0⟩ := e
    by_cases h : k0 = k
    · subst h; simp [setA, lookup_cons_same]
    · rw [setA, if_neg h, lookup_cons_diff _ _ (fun hh => h hh.symm), ih]

theorem lookup_setA_ne {α β : Type} [DecidableEq α] (m : List (α × β)) (k k1 : α) (v : β)
    (h : k1 ≠ k) : List.lookup k1 (setA m k v) = List.lookup k1 m := by
  induction m with
  | nil => simp [setA, lookup_cons_diff _ _ h]
  | cons e rest ih =>
    obtain ⟨k0, v0⟩ := e
    by_cases h0 : k0 = k
    · subst h0
      rw [setA, if_pos rfl, lookup_cons_diff _ _ h, lookup_cons_diff _ _ h]
    · rw [setA, if_neg h0]
      by_cases h1 : k1 = k0
      · subst h1; rw [lookup_cons_same, lookup_cons_same]
      · rw [lookup_cons_diff _ _ h1, lookup_cons_diff _ _ h1, ih]

theorem lookup_eraseA_ne {α β : Type} [DecidableEq α] (m : List (α × β)) (k k1 : α)
    (h : k1 ≠ k) : List.lookup k1 (eraseA m k) = List.lookup k1 m := by
  induction m with
  | nil => simp [eraseA]
  | cons e rest ih =>
    obtain ⟨k0, v0⟩ := e
    by_cases h0 : k0 = k
    · subst h0
      rw [eraseA, if_pos rfl, lookup_cons_diff _ _ h]
    · rw [eraseA, if_neg h0]
      by_cases h1 : k1 = k0
      · subst h1; rw [lookup_cons_same, lookup_cons_same]
      · rw [lookup_cons_diff _ _ h1, lookup_cons_diff _ _ h1, ih]

theorem lookup_eraseA_self {α β : Type} [DecidableEq α] (m : List (α × β)) (k : α)
    (hk : (m.map Prod.fst).Nodup) : List.lookup k (eraseA m k) = none := by
  induction m with
  | nil => simp [eraseA]
  | cons e rest ih =>
    obtain ⟨k0, v0⟩ := e
    simp only [List.map_cons, List.nodup_cons] at hk
    by_cases h0 : k0 = k
    · subst h0
      rw [eraseA, if_pos rfl]
      -- k0 does not occur among the remaining keys
      clear ih
      induction rest with
      | nil => simp [List.lookup]
      | cons e1 rest1 ih1 =>
        obtain ⟨k1, v1⟩ := e1
        simp only [List.map_cons, List.mem_cons, List.nodup_cons] at hk
        have hne : k0 ≠ k1 := fun hh => hk.1 (Or.inl hh)
        rw [lookup_cons_diff _ _ hne]
        exact ih1 ⟨fun hm => hk.1 (Or.inr hm), hk.2.2⟩
    · rw [eraseA, if_neg h0, lookup_cons_diff _ _ (fun hh => h0 hh.symm)]
      exact ih hk.2

theorem lookup_pair_map_isSome {beta : Type} (f : Nat → beta) (l : List Nat) (id : Nat) :
    (List.lookup id (l.map (fun x => (x, f x)))).isSome ↔ id ∈ l := by
  induction l with
  | nil => simp [List.lookup]
  | cons x rest ih =>
    by_cases h : id = x
    · subst h; simp [lookup_cons_same]
    · simp only [List.map_cons, lookup_cons_diff (f x) _ h, List.mem_cons, ih]
      tauto

theorem dispatch_preserves_consistency {A : Type} (ops : AlgoOps A)
    (ipOf : String → String) (s : NodeState A) (p : Packet) (addr : Addr) (now : Nat)
    (hs : StoreBitmapConsistent s) :
    StoreBitmapConsistent (dispatch ops ipOf s p addr now).1 := by
  rw [dispatch]
  repeat' split
  any_goals exact hs
  -- the TYPE_DATA branch with a fresh chunk: store and bitmap grow together
  next hfresh =>
    intro id
    dsimp only
    rw [setInsert, if_neg hfresh]
    by_cases h : id = p.seq
    · subst h
      simp [lookup_setA_self]
    · rw [lookup_setA_ne _ _ _ _ h]
      simp only [List.mem_cons, h, false_or]
      exact hs id

/-- C2: the store/bitmap consistency invariant holds at construction (the
initial chunk set seeds bitmap and store together) and is preserved by every
complete `P2PNode.handle_packet` run on any inbound packet, for any scheduling
algorithm. -/
theorem store_bitmap_consistency (chunks : List Nat) (host : String) (port : Nat)
    (role : String) (A : Type) (ops : AlgoOps A) (a : A) (ipOf : String → String)
    (s : NodeState A) (p : Packet) (addr : Addr) (now : Nat)
    (hs : StoreBitmapConsistent s) :
    StoreBitmapConsistent (initNode A host port role chunks a)
    ∧ StoreBitmapConsistent (handlePacketN ops ipOf s p addr now).1 := by
  constructor
  · intro id
    rw [initNode]
    dsimp only
    rw [lookup_pair_map_isSome]
  · rw [handlePacketN]
    dsimp only
    split
    · exact hs
    · exact dispatch_preserves_consistency ops ipOf _ p addr now hs

/-- Witness for C2: a fresh viewer node processing a concrete DATA packet. -/
theorem store_bitmap_consistency_witness :
    StoreBitmapConsistent (initNode PushSt "0.0.0.0" 9000 "viewer" [5, 5, 9] [])
    ∧ StoreBitmapConsistent
        (handlePacketN defaultPushOps (fun _ => "10.0.0.1")
          ⟨"0.0.0.0", 9001, "viewer", [], [], [], []⟩
          (mkPacket TYPE_DATA 3 100 [1, 2, 3]) ("127.0.0.1", 9000) 100).1 :=
  store_bitmap_consistency [5, 5, 9] "0.0.0.0" 9000 "viewer" PushSt defaultPushOps []
    (fun _ => "10.0.0.1") ⟨"0.0.0.0", 9001, "viewer", [], [], [], []⟩
    (mkPacket TYPE_DATA 3 100 [1, 2, 3]) ("127.0.0.1", 9000) 100
    (by intro id; simp [List.lookup])

/-- C4 (code bug demonstration): handling a PONG leaves the node state
unchanged apart from the unconditional liveness touch — in particular no RTT
sample is stored anywhere.  The source computes `rtt` and calls
`peers[addr].update_rtt(rtt)`, but the `Peer` class (see the `Peer` structure
above, which carries its exact attributes) defines neither `rtt` nor
`update_rtt`; the AttributeError is swallowed by the bare `except`. -/
theorem pong_rtt_not_stored (ipOf : String → String) (s : NodeState PushSt)
    (p : Packet) (addr : Addr) (now : Nat) (h : p.msgType = TYPE_PONG) :
    handlePacketN defaultPushOps ipOf s p addr now
      = ({ s with peers := updatePeerT s.peers addr none now }, []) := by
  obtain ⟨ver, mt, seq, ts, pl⟩ := p
  simp only at h
  subst h
  rfl

/-- Witness for C4 at a concrete PONG packet and node state. -/
theorem pong_rtt_not_stored_witness :
    handlePacketN defaultPushOps (fun _ => "10.0.0.1")
      ⟨"0.0.0.0", 9000, "viewer", [], [], [(("127.0.0.1", 9001), ⟨"127.0.0.1", 9001, "viewer", 50, []⟩)], []⟩
      (mkPacket TYPE_PONG 0 100 (strBytes "100.0")) ("127.0.0.1", 9001) 105
      = (⟨"0.0.0.0", 9000, "viewer", [], [],
          [(("127.0.0.1", 9001), ⟨"127.0.0.1", 9001, "viewer", 105, []⟩)], []⟩, []) := by
  rw [pong_rtt_not_stored _ _ _ _ _ rfl]
  rfl

/-- C5 (code bug demonstration): a single `DefaultPushAlgorithm.on_tick` run
on a `pending_push` of six one-target entries performs six send actions, not
at most five — the source sets `limit = 5` and counts `processed` but never
compares them. -/
theorem push_on_tick_six_sends :
    (pushOnTick [(1, [("h", 1)]), (2, [("h", 1)]), (3, [("h", 1)]),
      (4, [("h", 1)]), (5, [("h", 1)]), (6, [("h", 1)])]).2
      = [(("h", 1), 1), (("h", 1), 2), (("h", 1), 3),
         (("h", 1), 4), (("h", 1), 5), (("h", 1), 6)] := by
  rfl

/-- C10: `send_data_packet` always emits exactly the DATA packet; when the
chunk is not yet owned it additionally stores the payload under `seq` in the
data store, adds `seq` to `my_bitmap`, and invokes the algorithm's
`on_chunk_received` hook with the destination address in the source-address
position; when the chunk is already owned, store, bitmap and algorithm state
are left unchanged. -/
theorem send_data_packet_stores {A : Type} (ops : AlgoOps A) (s : NodeState A)
    (addr : Addr) (seq : Nat) (payload : Bytes) (now : Nat) :
    (seq ∉ s.myBitmap →
      sendDataPacket ops s addr seq payload now
        = ({ s with dataStore := setA s.dataStore seq payload,
                    myBitmap := seq :: s.myBitmap,
                    algo := ops.onChunkReceived s.algo (s.peers.map (fun e => e.1))
                              seq payload addr },
           [(addr, mkPacket TYPE_DATA seq now payload)]))
    ∧ (seq ∈ s.myBitmap →
      sendDataPacket ops s addr seq payload now
        = (s, [(addr, mkPacket TYPE_DATA seq now payload)])) := by
  constructor
  · intro h
    simp [sendDataPacket, h, setInsert]
  · intro h
    simp [sendDataPacket, h]

/-- Witness for C10 on a concrete fresh chunk and the flooding algorithm. -/
theorem send_data_packet_stores_witness :
    (7 ∉ ([] : List Nat) →
      sendDataPacket defaultPushOps
          ⟨"0.0.0.0", 9000, "broadcaster", [], [], [], []⟩ ("127.0.0.1", 9001) 7 [1, 2] 50
        = (⟨"0.0.0.0", 9000, "broadcaster", [7], [(7, [1, 2])], [],
            pushOnChunkReceived [] [] 7 [1, 2] ("127.0.0.1", 9001)⟩,
           [(("127.0.0.1", 9001), mkPacket TYPE_DATA 7 50 [1, 2])]))
    ∧ (7 ∈ ([] : List Nat) →
      sendDataPacket defaultPushOps
          ⟨"0.0.0.0", 9000, "broadcaster", [], [], [], []⟩ ("127.0.0.1", 9001) 7 [1, 2] 50
        = (⟨"0.0.0.0", 9000, "broadcaster", [], [], [], []⟩,
           [(("127.0.0.1", 9001), mkPacket TYPE_DATA 7 50 [1, 2])])) :=
  send_data_packet_stores defaultPushOps
    ⟨"0.0.0.0", 9000, "broadcaster", [], [], [], []⟩ ("127.0.0.1", 9001) 7 [1, 2] 50

/-- C8 counterexample: generating a chunk through the Splitter while the peer
set is empty stores NOTHING — the claimed insertion into the chunk store and
bitmap does not happen (the hook returns before `send_data_packet`, whose
side effect is the only storage on this path; callers store generated chunks
themselves before invoking the hook). -/
theorem splitter_empty_peers_counterexample :
    (splitterOnChunkGenerated ⟨"0.0.0.0", 9000, "broadcaster", [], [], [], ⟨0⟩⟩
        7 [1, 2, 3] 100).2 = []
    ∧ List.lookup 7 (splitterOnChunkGenerated
        ⟨"0.0.0.0", 9000, "broadcaster", [], [], [], ⟨0⟩⟩ 7 [1, 2, 3] 100).1.dataStore
      = none
    ∧ 7 ∉ (splitterOnChunkGenerated
        ⟨"0.0.0.0", 9000, "broadcaster", [], [], [], ⟨0⟩⟩ 7 [1, 2, 3] 100).1.myBitmap := by
  refine ⟨rfl, rfl, ?_⟩
  simp [splitterOnChunkGenerated]

/-- C8 as amended: with an empty active peer set,
`SplitterAlgorithm.on_chunk_generated` sends no DATA packet and leaves the
entire node state (chunk store and bitmap included) unchanged; storage of a
generated chunk is the caller's responsibility, performed before the hook. -/
theorem splitter_empty_peers_no_send (s : NodeState SplitterSt) (chunkId : Nat)
    (payload : Bytes) (now : Nat) (h : s.peers = []) :
    splitterOnChunkGenerated s chunkId payload now = (s, []) := by
  simp [splitterOnChunkGenerated, h]

theorem addFragment_none_eq (st : Reassembler) (pb : Bytes)
    (h : (st.addFragment pb).2 = none) :
    (st.addFragment pb).1.lastCompleted = st.lastCompleted := by
  revert h
  rw [Reassembler.addFragment]
  dsimp only
  repeat' split
  all_goals intro h
  all_goals first
    | rfl
    | exact Option.noConfusion h

theorem addFragment_some_last (st : Reassembler) (pb : Bytes) (out : Bytes)
    (h : (st.addFragment pb).2 = some out) :
    st.lastCompleted < (st.addFragment pb).1.lastCompleted := by
  revert h
  rw [Reassembler.addFragment]
  dsimp only
  repeat' split
  all_goals intro h
  all_goals first
    | exact Option.noConfusion h
    | (dsimp only; omega)

/-- The stale-frame guard: a fragment whose frame id is at most
`last_completed_frame_id` changes nothing and emits nothing. -/
theorem addFragment_stale (st : Reassembler) (pb : Bytes) (c : ChunkPayload)
    (hparse : ChunkPayload.unpack pb = some c)
    (hold : (c.frameId : Int) ≤ st.lastCompleted) :
    st.addFragment pb = (st, none) := by
  rw [Reassembler.addFragment]
  simp only [hparse]
  rw [if_pos hold]

theorem run_emissions_aux (inputs : List Bytes) (st : Reassembler) :
    (∀ e ∈ (runReassembler inputs st).2, st.lastCompleted < e.1)
    ∧ List.Pairwise (fun a b : Int × Bytes => a.1 < b.1) (runReassembler inputs st).2 := by
  induction inputs generalizing st with
  | nil => simp [runReassembler]
  | cons pb rest ih =>
    rw [runReassembler]
    cases hout : (st.addFragment pb).2 with
    | none =>
      simp only [hout]
      have hlast := addFragment_none_eq st pb hout
      constructor
      · intro e he
        have h1 := (ih (st.addFragment pb).1).1 e he
        omega
      · exact (ih _).2
    | some bs =>
      simp only [hout]
      have hlast := addFragment_some_last st pb bs hout
      constructor
      · intro e he
        rcases List.mem_cons.mp he with h | h
        · rw [h]
          exact hlast
        · have h1 := (ih (st.addFragment pb).1).1 e h
          omega
      · rw [List.pairwise_cons]
        exact ⟨fun e he => (ih _).1 e he, (ih _).2⟩

/-- C3: over any sequence of `add_fragment` calls from a fresh reassembler
(fragments in any order, duplicates and interleavings allowed), the emitted
frame ids are pairwise strictly increasing (hence each frame id yields at most
one emitted byte-string), and a fragment whose frame id is at most
`last_completed_frame_id` is discarded with no state change and no
emission. -/
theorem reassembler_emission_invariant (inputs : List Bytes) :
    List.Pairwise (· < ·) ((runReassembler inputs initReassembler).2.map Prod.fst)
    ∧ (∀ fid : Int, ((runReassembler inputs initReassembler).2.map Prod.fst).count fid ≤ 1)
    ∧ (∀ (st : Reassembler) (pb : Bytes) (c : ChunkPayload),
        ChunkPayload.unpack pb = some c → (c.frameId : Int) ≤ st.lastCompleted →
        st.addFragment pb = (st, none)) := by
  have hmap : List.Pairwise (· < ·) ((runReassembler inputs initReassembler).2.map Prod.fst) := by
    rw [List.pairwise_map]
    exact (run_emissions_aux inputs initReassembler).2
  refine ⟨hmap, ?_, addFragment_stale⟩
  intro fid
  have hnd : ((runReassembler inputs initReassembler).2.map Prod.fst).Nodup :=
    hmap.imp (fun h => ne_of_lt h)
  exact List.nodup_iff_count_le_one.mp hnd fid

/-- Witness for C3: a complete one-fragment frame and a stale fragment. -/
theorem reassembler_emission_invariant_witness :
    List.Pairwise (· < ·)
      ((runReassembler [[0, 0, 0, 3, 0, 1, 0, 0, 7, 8]] initReassembler).2.map Prod.fst)
    ∧ Reassembler.addFragment ⟨[], [], 5⟩ [0, 0, 0, 3, 0, 1, 0, 0, 7, 8]
        = (⟨[], [], 5⟩, none) :=
  ⟨(reassembler_emission_invariant [[0, 0, 0, 3, 0, 1, 0, 0, 7, 8]]).1,
   (reassembler_emission_invariant []).2.2 ⟨[], [], 5⟩ [0, 0, 0, 3, 0, 1, 0, 0, 7, 8]
     ⟨3, 1, 0, [7, 8]⟩ rfl (by decide)⟩

theorem rarest_intercept_returns_false (a : PushSt) (p : Packet) (ad : Addr) :
    (rarestHandlePacket a p ad).2 = false := by
  unfold rarestHandlePacket
  repeat' split
  all_goals rfl

/-- C6: after a RarestFirst or EDF scheduler (the EDF interception being a
verbatim duplicate of the RarestFirst one) processes a REQUEST from peer
`addr` for chunk `c`, the requester is no longer a target of
`pending_push[c]` (the entry disappearing when it empties), every other entry
is untouched, the interception returns `False`, and the node therefore falls
through to the default REQUEST handler and answers with the chunk when it
owns it.  The dict/list hypotheses (`pending_push` keys unique, target lists
duplicate-free) are structural invariants of Python dicts and of target lists
built from dict keys. -/
theorem request_pull_dedup (pp : PushSt) (p : Packet) (addr : Addr) (c : Nat)
    (hmt : p.msgType = TYPE_REQUEST) (hparse : digitsNat p.payload = some c)
    (hkeys : (pp.map Prod.fst).Nodup)
    (hts : ∀ ts, List.lookup c pp = some ts → ts.Nodup) :
    edfHandlePacket pp p addr = rarestHandlePacket pp p addr
    ∧ (rarestHandlePacket pp p addr).2 = false
    ∧ (∀ ts1, List.lookup c (rarestHandlePacket pp p addr).1 = some ts1 → addr ∉ ts1)
    ∧ (∀ k, k ≠ c → List.lookup k (rarestHandlePacket pp p addr).1 = List.lookup k pp)
    ∧ (∀ (ipOf : String → String) (s : NodeState PushSt) (d : Bytes) (now : Nat),
        List.lookup c s.dataStore = some d →
        (handlePacketN rarestOps ipOf s p addr now).2
          = [(addr, mkPacket TYPE_DATA c now d)]) := by
  refine ⟨by rw [edfHandlePacket, rarestHandlePacket],
    rarest_intercept_returns_false pp p addr, ?_, ?_, ?_⟩
  · intro ts1 hl
    rw [rarestHandlePacket, if_pos hmt, hparse] at hl
    dsimp only at hl
    cases hcase : List.lookup c pp with
    | none =>
      rw [hcase] at hl
      dsimp only at hl
      rw [hcase] at hl
      exact Option.noConfusion hl
    | some ts =>
      rw [hcase] at hl
      dsimp only at hl
      by_cases hmem : addr ∈ ts
      · rw [if_pos hmem] at hl
        by_cases hemp : (ts.erase addr).isEmpty = true
        · rw [if_pos hemp] at hl
          dsimp only at hl
          rw [lookup_eraseA_self pp c hkeys] at hl
          exact Option.noConfusion hl
        · rw [if_neg hemp] at hl
          dsimp only at hl
          rw [lookup_setA_self] at hl
          have h2 := Option.some.inj hl
          subst h2
          exact (hts ts hcase).not_mem_erase
      · rw [if_neg hmem] at hl
        dsimp only at hl
        rw [hcase] at hl
        have h2 := Option.some.inj hl
        subst h2
        exact hmem
  · intro k hk
    rw [rarestHandlePacket, if_pos hmt, hparse]
    dsimp only
    cases hcase : List.lookup c pp with
    | none => rfl
    | some ts =>
      dsimp only
      by_cases hmem : addr ∈ ts
      · rw [if_pos hmem]
        by_cases hemp : (ts.erase addr).isEmpty = true
        · rw [if_pos hemp]
          exact lookup_eraseA_ne pp c k hk
        · rw [if_neg hemp]
          exact lookup_setA_ne pp c k _ hk
      · rw [if_neg hmem]
  · intro ipOf s d now hd
    rw [handlePacketN]
    dsimp only [rarestOps]
    rw [rarest_intercept_returns_false]
    simp only [Bool.false_eq_true, if_false]
    rw [dispatch, hmt]
    norm_num [TYPE_REQUEST, TYPE_HANDSHAKE, TYPE_PEER_LIST, TYPE_PING, TYPE_PONG,
      TYPE_HEARTBEAT, TYPE_BITMAP]
    rw [hparse]
    dsimp only
    rw [hd]

/-- Witness for C6 at a concrete pending-push state and REQUEST packet. -/
theorem request_pull_dedup_witness :
    (Packet.msgType (mkPacket TYPE_REQUEST 0 9 (strBytes "3")) = TYPE_REQUEST)
    ∧ (digitsNat (Packet.payload (mkPacket TYPE_REQUEST 0 9 (strBytes "3"))) = some 3)
    ∧ (∀ ts1, List.lookup 3
        (rarestHandlePacket [(3, [("a", 1), ("b", 2)]), (4, [("a", 1)])]
          (mkPacket TYPE_REQUEST 0 9 (strBytes "3")) ("a", 1)).1 = some ts1 → ("a", 1) ∉ ts1) := by
  refine ⟨rfl, by decide, ?_⟩
  exact (request_pull_dedup [(3, [("a", 1), ("b", 2)]), (4, [("a", 1)])]
    (mkPacket TYPE_REQUEST 0 9 (strBytes "3")) ("a", 1) 3 rfl (by decide)
    (by decide) (by decide)).2.2.1

theorem countP_range_mod (N r : Nat) (hN : 0 < N) (hr : r < N) (M : Nat) :
    List.countP (fun k => decide ((k + 1) % N = r)) (List.range M)
      = M / N + (if r ≠ 0 ∧ r ≤ M % N then 1 else 0) := by
  induction M with
  | zero =>
    simp only [List.range_zero, List.countP_nil, Nat.zero_div, Nat.zero_mod]
    split_ifs with h
    · omega
    · rfl
  | succ M ih =>
    rw [List.range_succ, List.countP_append, ih]
    simp only [List.countP_cons, List.countP_nil, decide_eq_true_eq, Nat.zero_add]
    have hdm := Nat.div_add_mod M N
    have hlt : M % N < N := Nat.mod_lt _ hN
    by_cases hs : M % N + 1 = N
    · have hexp : N * (M / N + 1) = N * (M / N) + N := by ring
      have h1 : M + 1 = N * (M / N + 1) := by omega
      have h2 : (M + 1) % N = 0 := by rw [h1, Nat.mul_mod_right]
      have h3 : (M + 1) / N = M / N + 1 := by rw [h1, Nat.mul_div_cancel_left _ hN]
      rw [h2, h3]
      split_ifs <;> omega
    · have h1 : M + 1 = N * (M / N) + (M % N + 1) := by omega
      have h2 : (M + 1) % N = M % N + 1 := by
        rw [h1, Nat.mul_add_mod]
        exact Nat.mod_eq_of_lt (by omega)
      have h3 : (M + 1) / N = M / N := by
        rw [h1, Nat.mul_add_div hN]
        have h4 : (M % N + 1) / N = 0 := Nat.div_eq_of_lt (by omega)
        rw [h4]
        omega
      rw [h2, h3]
      split_ifs <;> omega

theorem splitterGen_shape (s : NodeState SplitterSt) (c : Nat) (pl : Bytes) (now : Nat)
    (h : s.peers.map (fun e => e.1) ≠ []) :
    ((splitterOnChunkGenerated s c pl now).2).map Prod.fst
        = [(s.peers.map (fun e => e.1)).getD
            ((s.algo.rrIndex + 1) % (s.peers.map (fun e => e.1)).length) ("", 0)]
    ∧ (splitterOnChunkGenerated s c pl now).1.peers = s.peers
    ∧ (splitterOnChunkGenerated s c pl now).1.algo
        = ⟨(s.algo.rrIndex + 1) % (s.peers.map (fun e => e.1)).length⟩ := by
  rw [splitterOnChunkGenerated]
  have hne : ¬ ((s.peers.map (fun e => e.1)).isEmpty = true) := by
    rw [List.isEmpty_iff]
    exact h
  rw [if_neg hne]
  rw [sendDataPacket]
  dsimp only
  split
  · exact ⟨rfl, rfl, rfl⟩
  · exact ⟨rfl, rfl, rfl⟩

theorem splitterRun_targets (now : Nat) (chunks : List (Nat × Bytes)) :
    ∀ (s : NodeState SplitterSt), s.peers.map (fun e => e.1) ≠ [] →
    ((splitterRun s now chunks).2).map Prod.fst
      = (List.range chunks.length).map
          (fun k => (s.peers.map (fun e => e.1)).getD
            ((s.algo.rrIndex + k + 1) % (s.peers.map (fun e => e.1)).length) ("", 0)) := by
  induction chunks with
  | nil =>
    intro s h
    simp [splitterRun]
  | cons cp rest ih =>
    intro s h
    obtain ⟨c, pl⟩ := cp
    rw [splitterRun]
    dsimp only
    rw [List.map_append]
    obtain ⟨h1, h2, h3⟩ := splitterGen_shape s c pl now h
    have hpeers_ne : (splitterOnChunkGenerated s c pl now).1.peers.map (fun e => e.1) ≠ [] := by
      rw [h2]; exact h
    rw [h1, ih _ hpeers_ne, h2, h3]
    rw [List.length_cons, List.range_succ_eq_map, List.map_cons, List.map_map]
    rw [List.singleton_append]
    congr 1
    apply List.map_congr_left
    intro k _
    have hidx : (s.algo.rrIndex + 1) % (s.peers.map (fun e => e.1)).length + k + 1
        = (s.algo.rrIndex + 1) % (s.peers.map (fun e => e.1)).length + (k + 1) := by omega
    have hmod : ((s.algo.rrIndex + 1) % (s.peers.map (fun e => e.1)).length + (k + 1))
          % (s.peers.map (fun e => e.1)).length
        = (s.algo.rrIndex + 1 + (k + 1)) % (s.peers.map (fun e => e.1)).length :=
      Nat.mod_add_mod _ _ _
    simp only [Function.comp]
    rw [hidx, hmod]
    congr 2
    omega

/-- C7: under the Splitter with a fixed duplicate-free non-empty peer set of
size N, a run of M sequential `on_chunk_generated` calls sends exactly one
DATA packet per generated chunk, and every peer is the unicast target of
either ⌊M/N⌋ or ⌈M/N⌉ of them. -/
theorem splitter_round_robin_balance (peers : List (Addr × Peer))
    (chunks : List (Nat × Bytes)) (now : Nat) (host : String) (port : Nat)
    (bm : List Nat) (store : List (Nat × Bytes))
    (hne : peers ≠ []) (hnd : (peers.map (fun e => e.1)).Nodup) :
    ((splitterRun ⟨host, port, "broadcaster", bm, store, peers, ⟨0⟩⟩ now chunks).2).length
        = chunks.length
    ∧ (∀ p ∈ peers.map (fun e => e.1),
        (((splitterRun ⟨host, port, "broadcaster", bm, store, peers, ⟨0⟩⟩ now chunks).2).map
            Prod.fst).count p = chunks.length / peers.length
        ∨ (((splitterRun ⟨host, port, "broadcaster", bm, store, peers, ⟨0⟩⟩ now chunks).2).map
            Prod.fst).count p = (chunks.length + peers.length - 1) / peers.length) := by
  have hps : (NodeState.peers (A := SplitterSt)
      ⟨host, port, "broadcaster", bm, store, peers, ⟨0⟩⟩).map (fun e => e.1) ≠ [] := by
    intro hh
    apply hne
    have hlen0 := congrArg List.length hh
    simp only [List.length_map, List.length_nil] at hlen0
    exact List.length_eq_zero.mp hlen0
  have htg := splitterRun_targets now chunks ⟨host, port, "broadcaster", bm, store, peers, ⟨0⟩⟩ hps
  have hNpos : 0 < peers.length := List.length_pos.mpr hne
  have hNmap : (peers.map (fun e : Addr × Peer => e.1)).length = peers.length :=
    List.length_map _ _
  constructor
  · have hlen := congrArg List.length htg
    simp only [List.length_map, List.length_range] at hlen
    exact hlen
  · intro p hp
    obtain ⟨⟨r, hrlt⟩, hget⟩ := List.mem_iff_get.mp hp
    rw [htg]
    rw [List.count_eq_countP, List.countP_map]
    have hNpos2 : 0 < (peers.map (fun e : Addr × Peer => e.1)).length := by
      rw [hNmap]; exact hNpos
    have hcong : ∀ k ∈ List.range chunks.length,
        ((fun x => x == p) ∘ fun k =>
            (peers.map (fun e : Addr × Peer => e.1)).getD
              ((0 + k + 1) % (peers.map (fun e : Addr × Peer => e.1)).length) ("", 0)) k = true
        ↔ (fun k => decide ((k + 1) % (peers.map (fun e : Addr × Peer => e.1)).length = r)) k
            = true := by
      intro k _
      have hidx : (0 + k + 1) = (k + 1) := by omega
      have hilt : (k + 1) % (peers.map (fun e : Addr × Peer => e.1)).length
          < (peers.map (fun e : Addr × Peer => e.1)).length := Nat.mod_lt _ hNpos2
      simp only [Function.comp, beq_iff_eq, decide_eq_true_eq]
      rw [hidx, List.getD_eq_get _ _ hilt, ← hget, hnd.get_inj_iff]
      constructor
      · intro hh
        exact congrArg Fin.val hh
      · intro hh
        exact Fin.ext hh
    rw [List.countP_congr hcong]
    rw [countP_range_mod _ r hNpos2 hrlt]
    rw [hNmap]
    split_ifs with hind
    · right
      have hexp : peers.length * (chunks.length / peers.length + 1)
          = peers.length * (chunks.length / peers.length) + peers.length := by ring
      have hdm := Nat.div_add_mod chunks.length peers.length
      have h10 : chunks.length % peers.length < peers.length := Nat.mod_lt _ hNpos
      have h9 : chunks.length + peers.length - 1
          = peers.length * (chunks.length / peers.length + 1)
            + (chunks.length % peers.length - 1) := by omega
      rw [h9, Nat.mul_add_div hNpos]
      have h11 : (chunks.length % peers.length - 1) / peers.length = 0 :=
        Nat.div_eq_of_lt (by omega)
      rw [h11]
    · left
      omega

/-- Witness for C7: two stable peers, three generated chunks. -/
theorem splitter_round_robin_balance_witness :
    ((splitterRun ⟨"0.0.0.0", 9000, "broadcaster", [], [],
        [(("a", 1), ⟨"a", 1, "viewer", 0, []⟩), (("b", 2), ⟨"b", 2, "viewer", 0, []⟩)],
        ⟨0⟩⟩ 100 [(1, [1]), (2, [2]), (3, [3])]).2).length = 3
    ∧ (∀ p ∈ [(("a", 1), Peer.mk "a" 1 "viewer" 0 []),
          (("b", 2), Peer.mk "b" 2 "viewer" 0 [])].map (fun e => e.1),
        (((splitterRun ⟨"0.0.0.0", 9000, "broadcaster", [], [],
            [(("a", 1), ⟨"a", 1, "viewer", 0, []⟩), (("b", 2), ⟨"b", 2, "viewer", 0, []⟩)],
            ⟨0⟩⟩ 100 [(1, [1]), (2, [2]), (3, [3])]).2).map Prod.fst).count p = 3 / 2
        ∨ (((splitterRun ⟨"0.0.0.0", 9000, "broadcaster", [], [],
            [(("a", 1), ⟨"a", 1, "viewer", 0, []⟩), (("b", 2), ⟨"b", 2, "viewer", 0, []⟩)],
            ⟨0⟩⟩ 100 [(1, [1]), (2, [2]), (3, [3])]).2).map Prod.fst).count p
          = (3 + 2 - 1) / 2) :=
  splitter_round_robin_balance
    [(("a", 1), ⟨"a", 1, "viewer", 0, []⟩), (("b", 2), ⟨"b", 2, "viewer", 0, []⟩)]
    [(1, [1]), (2, [2]), (3, [3])] 100 "0.0.0.0" 9000 [] []
    (by decide) (by decide)

/-- Witness for the amended C8 at a concrete state. -/
theorem splitter_empty_peers_no_send_witness :
    splitterOnChunkGenerated ⟨"0.0.0.0", 9000, "broadcaster", [1], [(1, [9])], [], ⟨3⟩⟩
        2 [4, 5] 100
      = (⟨"0.0.0.0", 9000, "broadcaster", [1], [(1, [9])], [], ⟨3⟩⟩, []) :=
  splitter_empty_peers_no_send _ 2 [4, 5] 100 rfl

/-! ## Bitmap RLE lemmas (C9) -/

theorem rleAux_head (xs : List Nat) : ∀ (start prev : Nat),
    ∃ p2 tl, rleAux start prev xs = (start, p2) :: tl := by
  induction xs with
  | nil => intro start prev; exact ⟨prev, [], rfl⟩
  | cons x xs ih =>
    intro start prev
    rw [rleAux]
    by_cases h : x = prev + 1
    · rw [if_pos h]; exact ih start x
    · rw [if_neg h]; exact ⟨prev, rleAux x x xs, rfl⟩

theorem rleAux_valid (xs : List Nat) : ∀ (start prev : Nat), start ≤ prev →
    List.Chain' (· < ·) (prev :: xs) →
    ∀ r ∈ rleAux start prev xs, r.1 ≤ r.2 := by
  induction xs with
  | nil =>
    intro start prev hsp _ r hr
    rw [rleAux] at hr
    rcases List.mem_singleton.mp hr with rfl
    exact hsp
  | cons x xs ih =>
    intro start prev hsp hch r hr
    rw [List.chain'_cons] at hch
    rw [rleAux] at hr
    by_cases h : x = prev + 1
    · rw [if_pos h] at hr
      exact ih start x (by omega) hch.2 r hr
    · rw [if_neg h] at hr
      rcases List.mem_cons.mp hr with rfl | hr2
      · exact hsp
      · exact ih x x le_rfl hch.2 r hr2

theorem rleAux_chain (xs : List Nat) : ∀ (start prev : Nat),
    List.Chain' (· < ·) (prev :: xs) →
    List.Chain' (fun a b : Nat × Nat => a.2 + 1 < b.1) (rleAux start prev xs) := by
  induction xs with
  | nil =>
    intro start prev _
    rw [rleAux]
    exact List.chain'_singleton _
  | cons x xs ih =>
    intro start prev hch
    rw [List.chain'_cons] at hch
    rw [rleAux]
    by_cases h : x = prev + 1
    · rw [if_pos h]
      exact ih start x hch.2
    · rw [if_neg h]
      obtain ⟨p2, tl, heq⟩ := rleAux_head xs x x
      rw [heq, List.chain'_cons]
      refine ⟨?_, heq ▸ ih x x hch.2⟩
      have hlt : prev < x := hch.1
      omega

theorem rleAux_mem (xs : List Nat) : ∀ (start prev : Nat), start ≤ prev →
    List.Chain' (· < ·) (prev :: xs) →
    ∀ y, y ∈ expandRanges (rleAux start prev xs) ↔ (start ≤ y ∧ y ≤ prev) ∨ y ∈ xs := by
  induction xs with
  | nil =>
    intro start prev hsp _ y
    rw [rleAux]
    simp only [expandRanges, List.flatMap_cons, List.flatMap_nil, List.append_nil,
      List.mem_range'_1, List.not_mem_nil, or_false]
    omega
  | cons x xs ih =>
    intro start prev hsp hch y
    rw [List.chain'_cons] at hch
    have hlt : prev < x := hch.1
    rw [rleAux]
    by_cases h : x = prev + 1
    · rw [if_pos h]
      rw [ih start x (by omega) hch.2 y]
      simp only [List.mem_cons]
      constructor
      · rintro (hy | hy)
        · by_cases hyx : y = x
          · exact Or.inr (Or.inl hyx)
          · exact Or.inl (by omega)
        · exact Or.inr (Or.inr hy)
      · rintro (hy | hy | hy)
        · exact Or.inl (by omega)
        · exact Or.inl (by omega)
        · exact Or.inr hy
    · rw [if_neg h]
      simp only [expandRanges, List.flatMap_cons, List.mem_append, List.mem_range'_1]
      have hih := ih x x le_rfl hch.2 y
      rw [expandRanges] at hih
      rw [hih]
      simp only [List.mem_cons]
      constructor
      · rintro (hy | hy | hy)
        · exact Or.inl (by omega)
        · exact Or.inr (Or.inl (by omega))
        · exact Or.inr (Or.inr hy)
      · rintro (hy | hy | hy)
        · exact Or.inl (by omega)
        · exact Or.inr (Or.inl (by omega))
        · exact Or.inr (Or.inr hy)

theorem sorted_strict_chain (bm : List Nat) (hnd : bm.Nodup) :
    List.Chain' (· < ·) (sortedChunks bm) := by
  have hsorted : List.Sorted (· ≤ ·) (sortedChunks bm) :=
    List.sorted_insertionSort (· ≤ ·) bm
  have hperm : (sortedChunks bm).Perm bm := List.perm_insertionSort (· ≤ ·) bm
  have hnd2 : (sortedChunks bm).Nodup := hperm.nodup_iff.mpr hnd
  have hpl : List.Pairwise (· < ·) (sortedChunks bm) :=
    (hsorted.and hnd2).imp (fun hab => lt_of_le_of_ne hab.1 hab.2)
  exact hpl.chain'

theorem mem_sortedChunks (bm : List Nat) (y : Nat) :
    y ∈ sortedChunks bm ↔ y ∈ bm :=
  (List.perm_insertionSort (· ≤ ·) bm).mem_iff

/-- C9: `send_bitmap` serializes exactly the JSON encoding of the last ≤50
maximal runs of the owned set: the ranges produced are valid (`start ≤ end`),
strictly ascending with gaps (hence exactly the maximal runs, in ascending
order), their expansion recovers the owned set exactly, and the transmitted
list is the at-most-50-element suffix (the runs with the largest chunk ids),
all of them when there are at most 50. -/
theorem bitmap_rle_correct (bm : List Nat) (hnd : bm.Nodup) :
    sendBitmapPayload bm = dumpRangesBytes (truncRanges (rleRanges (sortedChunks bm)))
    ∧ (∀ r ∈ rleRanges (sortedChunks bm), r.1 ≤ r.2)
    ∧ List.Chain' (fun a b : Nat × Nat => a.2 + 1 < b.1) (rleRanges (sortedChunks bm))
    ∧ (∀ x, x ∈ expandRanges (rleRanges (sortedChunks bm)) ↔ x ∈ bm)
    ∧ truncRanges (rleRanges (sortedChunks bm)) <:+ rleRanges (sortedChunks bm)
    ∧ ((rleRanges (sortedChunks bm)).length ≤ 50 →
        truncRanges (rleRanges (sortedChunks bm)) = rleRanges (sortedChunks bm))
    ∧ ((rleRanges (sortedChunks bm)).length > 50 →
        (truncRanges (rleRanges (sortedChunks bm))).length = 50) := by
  have hch := sorted_strict_chain bm hnd
  refine ⟨?_, ?_, ?_, ?_, ?_, ?_, ?_⟩
  · rw [sendBitmapPayload]
    by_cases hbm : bm.isEmpty
    · rw [if_pos hbm]
      have hbm2 : bm = [] := List.isEmpty_iff.mp hbm
      subst hbm2
      rfl
    · rw [if_neg hbm]
  · cases hsc : sortedChunks bm with
    | nil => intro r hr; rw [rleRanges] at hr; cases hr
    | cons x xs =>
      rw [rleRanges]
      exact rleAux_valid xs x x le_rfl (hsc ▸ hch)
  · cases hsc : sortedChunks bm with
    | nil => rw [rleRanges]; exact List.chain'_nil
    | cons x xs =>
      rw [rleRanges]
      exact rleAux_chain xs x x (hsc ▸ hch)
  · intro y
    rw [← mem_sortedChunks bm y]
    cases hsc : sortedChunks bm with
    | nil =>
      rw [rleRanges]
      simp [expandRanges]
    | cons x xs =>
      rw [rleRanges, rleAux_mem xs x x le_rfl (hsc ▸ hch) y]
      simp only [List.mem_cons]
      constructor
      · rintro (hy | hy)
        · exact Or.inl (by omega)
        · exact Or.inr hy
      · rintro (hy | hy)
        · exact Or.inl (by omega)
        · exact Or.inr hy
  · rw [truncRanges]
    split
    · exact List.drop_suffix _ _
    · exact List.suffix_rfl
  · intro hle
    rw [truncRanges, if_neg (by omega)]
  · intro hgt
    rw [truncRanges, if_pos hgt, List.length_drop]
    omega

/-- Witness for C9 at a concrete owned set with a gap. -/
theorem bitmap_rle_correct_witness :
    sendBitmapPayload [4, 1, 2] = dumpRangesBytes (truncRanges (rleRanges (sortedChunks [4, 1, 2])))
    ∧ (∀ x, x ∈ expandRanges (rleRanges (sortedChunks [4, 1, 2])) ↔ x ∈ [4, 1, 2]) :=
  ⟨(bitmap_rle_correct [4, 1, 2] (by decide)).1,
   (bitmap_rle_correct [4, 1, 2] (by decide)).2.2.2.1⟩

end P2PStream
